import Mathlib

/-!
Verification of the ByteBuffer wire codec
(src/server/shared/Packets/ByteBuffer.cpp of the TrinityCore fork).

The codec state is embedded shallowly: the `std::vector<uint8>` storage is a
`List Nat` of byte values, the vector capacity is tracked explicitly, machine
integers are `Nat`/`Int` with explicit `% 2^w` where width matters, and every
fallible operation returns a result that carries both the outcome (value or
thrown exception) and the buffer state after the call, so that theorems can
speak about cursor positions after a failure.

Floating-point values are represented by their IEEE-754 bit patterns
(a `Nat` below `2^32` or `2^64`); the only floating operation the code
performs is `std::isfinite`, which is a pure test on the exponent bits.
-/

/-- Buffer state: `storage`, `capacity` are the `std::vector<uint8>` contents
and capacity; `rpos`, `wpos` are the read and write cursors `_rpos`/`_wpos`;
`bitpos`/`curbitval` are the sub-byte bit cursor `_bitpos`/`_curbitval`
(`bitpos = 8` means byte-aligned, no pending bits). -/
structure ByteBuffer where
  storage : List Nat
  capacity : Nat
  rpos : Nat
  wpos : Nat
  bitpos : Nat
  curbitval : Nat
deriving DecidableEq, Repr

/-- The two exception classes of ByteBuffer.cpp plus `ASSERT` failures
(`ByteBufferPositionException`, `ByteBufferInvalidValueException`, `ASSERT`).
The three `Nat` payloads of `position` record the constructor arguments in
call order. -/
inductive BBError where
  | position (a b c : Nat)
  | invalidValue (ty : String)
  | assertFailed (msg : String)
deriving DecidableEq, Repr

/-- Outcome of a codec call: the returned value or the thrown error, together
with the buffer state as it is left after the call (C++ exceptions do not roll
the object back). -/
inductive BBRes (α : Type) where
  | ok (val : α) (st : ByteBuffer)
  | err (e : BBError) (st : ByteBuffer)
deriving DecidableEq, Repr

def BBRes.state {α : Type} : BBRes α → ByteBuffer
  | .ok _ st => st
  | .err _ st => st

def BBRes.isOk {α : Type} : BBRes α → Bool
  | .ok _ _ => true
  | .err _ _ => false

def BBRes.isErr {α : Type} : BBRes α → Bool
  | .ok _ _ => false
  | .err _ _ => true

def BBRes.isPosErr {α : Type} : BBRes α → Bool
  | .err (.position _ _ _) _ => true
  | _ => false

def BBRes.isInvalid {α : Type} : BBRes α → Bool
  | .err (.invalidValue _) _ => true
  | _ => false

def BBRes.val? {α : Type} : BBRes α → Option α
  | .ok v _ => some v
  | .err _ _ => none

/-- A freshly constructed outbound buffer (`ByteBuffer() : _rpos(0), _wpos(0),
_bitpos(InitialBitPos), _curbitval(0)`, empty vector). -/
def ByteBuffer.fresh : ByteBuffer :=
  { storage := [], capacity := 0, rpos := 0, wpos := 0, bitpos := 8, curbitval := 0 }

/-- Modelled from the spec: `ByteBuffer::ResetBitPos` lives in ByteBuffer.h,
which is not under src/ (only its callers in ByteBuffer.cpp are). Per the
spec, byte-level read operations reset the bit cursor to the next byte
boundary before proceeding; the guard mirrors the callers' byte-aligned
fast path (nothing to do when already at a byte boundary). -/
def ByteBuffer.ResetBitPos (bb : ByteBuffer) : ByteBuffer :=
  if bb.bitpos > 7 then bb
  else { bb with bitpos := 8, curbitval := 0 }

/-- The staged capacity reservation table of `ByteBuffer::append`
("custom memory allocation rules"). -/
def reserveTarget (newSize : Nat) : Nat :=
  if newSize < 100 then 300
  else if newSize < 750 then 2500
  else if newSize < 6000 then 10000
  else 400000

/-- `if (_storage.size() < newSize) _storage.resize(newSize);` followed by
`memcpy(&_storage[pos], src, cnt)`: grow the byte list with zero fill to at
least `pos + cnt`, then overwrite `cnt` bytes at `pos`. -/
def storeAt (storage : List Nat) (pos : Nat) (src : List Nat) : List Nat :=
  let base :=
    if storage.length < pos + src.length
    then storage ++ List.replicate (pos + src.length - storage.length) 0
    else storage
  base.take pos ++ src ++ base.drop (pos + src.length)

/-- Vector capacity after `reserve(target)` (when triggered) and a resize to
`len` bytes: `reserve` never shrinks, and the vector always has
`capacity ≥ size`. -/
def capAfter (cap newSize len : Nat) : Nat :=
  max (if cap < newSize then max cap (reserveTarget newSize) else cap) len

/-- Modelled from the spec: `ByteBuffer::FlushBits` lives in ByteBuffer.h, not
under src/. Per the spec, a byte-aligned write first flushes pending
bit-cursor state to the next byte boundary: if bits are pending
(`bitpos ≠ 8`), the partially filled byte `curbitval` is appended at the
write cursor (through the same growth rules as `append`) and the bit cursor
is reset. -/
def ByteBuffer.FlushBits (bb : ByteBuffer) : ByteBuffer :=
  if bb.bitpos = 8 then bb
  else
    let newSize := bb.wpos + 1
    let st := storeAt bb.storage bb.wpos [bb.curbitval]
    { bb with
        storage := st
        capacity := capAfter bb.capacity newSize st.length
        wpos := newSize
        bitpos := 8
        curbitval := 0 }

/-- `ByteBuffer::append(uint8 const* src, size_t cnt)`: the `ASSERT`s on a
zero-sized value and on the hard size ceiling (`(size() + cnt) < 100000000`)
come first (a null `src` has no counterpart for a `List`), then `FlushBits`,
then the staged capacity reservation, resize and `memcpy` at `_wpos`, and
finally `_wpos = newSize`. -/
def ByteBuffer.append (bb : ByteBuffer) (src : List Nat) : BBRes Unit :=
  if src.length = 0 then .err (.assertFailed "Attempted to put a zero-sized value in ByteBuffer") bb
  else if 100000000 ≤ bb.storage.length + src.length then .err (.assertFailed "size limit") bb
  else
    let bb1 := bb.FlushBits
    let newSize := bb1.wpos + src.length
    let st := storeAt bb1.storage bb1.wpos src
    .ok () { bb1 with
               storage := st
               capacity := capAfter bb1.capacity newSize st.length
               wpos := newSize }

/-- `ByteBuffer::put(size_t pos, uint8 const* src, size_t cnt)`: bounds and
non-emptiness `ASSERT`s, then `memcpy(&_storage[pos], src, cnt)`. Note that
`put` performs no bit-cursor flush and touches no cursor. -/
def ByteBuffer.put (bb : ByteBuffer) (pos : Nat) (src : List Nat) : BBRes Unit :=
  if ¬ (pos + src.length ≤ bb.storage.length) then
    .err (.assertFailed "Attempted to put value with invalid size in ByteBuffer") bb
  else if src.length = 0 then
    .err (.assertFailed "Attempted to put a zero-sized value in ByteBuffer") bb
  else
    .ok () { bb with storage := bb.storage.take pos ++ src ++ bb.storage.drop (pos + src.length) }

/-- Bit `7 - k % 8` of byte `k / 8`: the most-significant-bit-first bit
addressing used by `ByteBuffer::PutBits` (`wp = (pos + i) / 8`,
`bit = (pos + i) % 8`, mask `1 << (7 - bit)`). -/
def getBitMSB (storage : List Nat) (k : Nat) : Bool :=
  (storage.getD (k / 8) 0).testBit (7 - k % 8)

/-- One iteration of the `PutBits` loop body:
`_storage[wp] |= 1 << (7 - bit)` or `_storage[wp] &= ~(1 << (7 - bit))`
(the complement taken within the eight bits of a `uint8`). -/
def setBitMSB (storage : List Nat) (k : Nat) (b : Bool) : List Nat :=
  let wp := k / 8
  let bit := k % 8
  if b then storage.set wp (storage.getD wp 0 ||| (1 <<< (7 - bit)))
  else storage.set wp (storage.getD wp 0 &&& (255 ^^^ (1 <<< (7 - bit))))

/-- The `for (i = 0; i < bitCount; ++i)` loop of `PutBits`, phrased as
recursion on the remaining bit count: iteration `i` writes bit
`bitCount - i - 1` of `value` (`(value >> (bitCount - i - 1)) & 1`) at
absolute bit offset `pos + i`; here the first step writes bit `n` (the
remaining most significant one) at `pos` and recurses at `pos + 1`. -/
def putBitsAux : List Nat → Nat → Nat → Nat → List Nat
  | storage, _, _, 0 => storage
  | storage, pos, value, n + 1 =>
      putBitsAux (setBitMSB storage pos (value.testBit n)) (pos + 1) value n

/-- `ByteBuffer::PutBits(pos, value, bitCount)`: `ASSERT`s that
`pos + bitCount <= size() * 8` and `bitCount != 0`, then the bit loop.
No cursor is touched. -/
def ByteBuffer.PutBits (bb : ByteBuffer) (pos value bitCount : Nat) : BBRes Unit :=
  if ¬ (pos + bitCount ≤ bb.storage.length * 8) then
    .err (.assertFailed "Attempted to put bits in ByteBuffer outside size") bb
  else if bitCount = 0 then
    .err (.assertFailed "Attempted to put a zero bits in ByteBuffer") bb
  else
    .ok () { bb with storage := putBitsAux bb.storage pos value bitCount }

/-- Modelled from the spec: the matching most-significant-bit-first bit read
at an absolute bit offset (the read half of the bit-packing contract; the
reader `ReadBits` lives in ByteBuffer.h, not under src/). -/
def readBitsAt : List Nat → Nat → Nat → Nat
  | _, _, 0 => 0
  | storage, pos, n + 1 =>
      (getBitMSB storage pos).toNat * 2 ^ n + readBitsAt storage (pos + 1) n

/-- A UTF-8 continuation byte (`10xxxxxx`). -/
def utf8cont (b : Nat) : Bool :=
  decide (0x80 ≤ b) && decide (b ≤ 0xBF)

/-- Modelled from the spec: `utf8::is_valid` comes from the vendored utfcpp
library, which is not under src/. Per the spec, strings must be well-formed
UTF-8; this is the RFC 3629 definition (no overlong forms, no surrogate code
points, nothing above U+10FFFF). -/
def validUtf8 : List Nat → Bool
  | [] => true
  | b0 :: rest =>
    if b0 < 0x80 then validUtf8 rest
    else if b0 < 0xC2 then false
    else if b0 < 0xE0 then
      match rest with
      | b1 :: rest1 => utf8cont b1 && validUtf8 rest1
      | [] => false
    else if b0 < 0xF0 then
      match rest with
      | b1 :: b2 :: rest2 =>
        (if b0 = 0xE0 then decide (0xA0 ≤ b1) && decide (b1 ≤ 0xBF)
         else if b0 = 0xED then decide (0x80 ≤ b1) && decide (b1 ≤ 0x9F)
         else utf8cont b1) && utf8cont b2 && validUtf8 rest2
      | _ => false
    else if b0 < 0xF5 then
      match rest with
      | b1 :: b2 :: b3 :: rest3 =>
        (if b0 = 0xF0 then decide (0x90 ≤ b1) && decide (b1 ≤ 0xBF)
         else if b0 = 0xF4 then decide (0x80 ≤ b1) && decide (b1 ≤ 0x8F)
         else utf8cont b1) && utf8cont b2 && utf8cont b3 && validUtf8 rest3
      | _ => false
    else false

/-- `std::ranges::find(begin, end, '\0')` over the unread tail: index of the
first zero byte, if any. -/
def findZeroIdx : List Nat → Option Nat
  | [] => none
  | b :: rest => if b = 0 then some 0 else (findZeroIdx rest).map (· + 1)

/-- `ByteBuffer::ReadCString(requireValidUtf8)`: position check at entry,
`ResetBitPos`, search for the terminator, cursor advance past it, and only
then the UTF-8 validity check (so the invalid-value exception leaves the
cursor advanced). -/
def ByteBuffer.ReadCString (bb : ByteBuffer) (requireValidUtf8 : Bool) : BBRes (List Nat) :=
  if bb.rpos ≥ bb.storage.length then .err (.position bb.rpos 1 bb.storage.length) bb
  else
    let bb1 := bb.ResetBitPos
    match findZeroIdx (bb1.storage.drop bb1.rpos) with
    | none => .err (.position bb1.storage.length 1 bb1.storage.length) bb1
    | some k =>
      let value := (bb1.storage.drop bb1.rpos).take k
      let bb2 := { bb1 with rpos := bb1.rpos + k + 1 }
      if requireValidUtf8 && ! validUtf8 value then .err (.invalidValue "string") bb2
      else .ok value bb2

/-- `ByteBuffer::ReadString(length, requireValidUtf8)`: position check, then
`ResetBitPos`, the zero-length fast path, cursor advance, and only then the
UTF-8 validity check. -/
def ByteBuffer.ReadString (bb : ByteBuffer) (length : Nat) (requireValidUtf8 : Bool) :
    BBRes (List Nat) :=
  if bb.rpos + length > bb.storage.length then
    .err (.position bb.rpos length bb.storage.length) bb
  else
    let bb1 := bb.ResetBitPos
    if length = 0 then .ok [] bb1
    else
      let value := (bb1.storage.drop bb1.rpos).take length
      let bb2 := { bb1 with rpos := bb1.rpos + length }
      if requireValidUtf8 && ! validUtf8 value then .err (.invalidValue "string") bb2
      else .ok value bb2

/-- Modelled from the spec: `ByteBuffer::read(uint8* dest, size_t len)` lives
in ByteBuffer.h, not under src/. Per the spec, `read` consumes `len` bytes
from the read cursor, failing with a position error (cursor unchanged) when
fewer bytes remain; the bit cursor is reset first. -/
def ByteBuffer.read (bb : ByteBuffer) (len : Nat) : BBRes (List Nat) :=
  if bb.rpos + len > bb.storage.length then
    .err (.position bb.rpos len bb.storage.length) bb
  else
    let bb1 := bb.ResetBitPos
    .ok ((bb1.storage.drop bb1.rpos).take len) { bb1 with rpos := bb1.rpos + len }

/-- The `memcpy` of an `n`-byte little-endian (native x86) fixed-width value
into the storage: least significant byte first. -/
def natToLE : Nat → Nat → List Nat
  | 0, _ => []
  | n + 1, v => v % 256 :: natToLE n (v / 256)

/-- The `memcpy` reassembling an `n`-byte little-endian value from storage
bytes. -/
def leToNat : List Nat → Nat
  | [] => 0
  | b :: rest => b + 256 * leToNat rest

/-- Modelled from the spec: `ByteBuffer::append<T>(T value)` (write of a
fixed-width value at the write cursor) lives in ByteBuffer.h, not under
src/. Per the spec, it appends the `n`-byte native representation of the
value. -/
def ByteBuffer.writeUInt (bb : ByteBuffer) (n v : Nat) : BBRes Unit :=
  bb.append (natToLE n v)

/-- Modelled from the spec: `read<T>()` for an unsigned `n`-byte integer —
consume `n` bytes from the read cursor and reassemble them. -/
def ByteBuffer.readUInt (bb : ByteBuffer) (n : Nat) : BBRes Nat :=
  match bb.read n with
  | .err e st => .err e st
  | .ok bytes st => .ok (leToNat bytes) st

/-- Two's-complement encoding of a signed `n`-byte value (the bytes `memcpy`
places for a negative native integer). -/
def intToLE (n : Nat) (v : Int) : List Nat :=
  natToLE n (v % (256 : Int) ^ n).toNat

/-- Two's-complement decoding of an unsigned reassembled value. -/
def decodeSigned (n u : Nat) : Int :=
  if u < 256 ^ n / 2 then (u : Int) else (u : Int) - (256 : Int) ^ n

/-- Modelled from the spec: `append<T>` for a signed `n`-byte integer. -/
def ByteBuffer.writeInt (bb : ByteBuffer) (n : Nat) (v : Int) : BBRes Unit :=
  bb.append (intToLE n v)

/-- Modelled from the spec: `read<T>()` for a signed `n`-byte integer. -/
def ByteBuffer.readInt (bb : ByteBuffer) (n : Nat) : BBRes Int :=
  match bb.read n with
  | .err e st => .err e st
  | .ok bytes st => .ok (decodeSigned n (leToNat bytes)) st

/-- `std::isfinite` on a 32-bit IEEE-754 pattern: finite iff the exponent
bits 23..30 are not all ones. -/
def isFinite32 (w : Nat) : Bool :=
  decide ((w >>> 23) % 256 ≠ 255)

/-- `std::isfinite` on a 64-bit IEEE-754 pattern: finite iff the exponent
bits 52..62 are not all ones. -/
def isFinite64 (w : Nat) : Bool :=
  decide ((w >>> 52) % 2048 ≠ 2047)

/-- `ByteBuffer::operator>>(float&)`: `read(&value, 1)` (4 bytes, advancing
the cursor), then the `std::isfinite` check, throwing
`ByteBufferInvalidValueException("float", "infinity")` on a non-finite
pattern — after the cursor has already advanced. -/
def ByteBuffer.readFloat (bb : ByteBuffer) : BBRes Nat :=
  match bb.read 4 with
  | .err e st => .err e st
  | .ok bytes st =>
    let w := leToNat bytes
    if ! isFinite32 w then .err (.invalidValue "float") st
    else .ok w st

/-- `ByteBuffer::operator>>(double&)`: as for `float`, with 8 bytes and the
64-bit exponent test. -/
def ByteBuffer.readDouble (bb : ByteBuffer) : BBRes Nat :=
  match bb.read 8 with
  | .err e st => .err e st
  | .ok bytes st =>
    let w := leToNat bytes
    if ! isFinite64 w then .err (.invalidValue "double") st
    else .ok w st

/-- Modelled from the spec: `write<float>` appends the 4-byte bit pattern. -/
def ByteBuffer.writeFloat (bb : ByteBuffer) (w : Nat) : BBRes Unit :=
  bb.append (natToLE 4 w)

/-- Modelled from the spec: `write<double>` appends the 8-byte bit pattern. -/
def ByteBuffer.writeDouble (bb : ByteBuffer) (w : Nat) : BBRes Unit :=
  bb.append (natToLE 8 w)

/-- Storage indices accessed by `ByteBuffer::print_storage`:
`for (i = 0; i < size(); ++i)` reads `_storage[i]`. -/
def printStorageIndices (size : Nat) : List Nat :=
  List.range size

/-- Storage indices accessed by the `ByteBuffer::hexlike` dump loop:
`for (i = 0; i < size(); )` with a body of two groups of eight `_storage[i]`
reads (`++i` each), so each outer iteration reads sixteen consecutive
indices whether or not they are below `size()`. -/
def hexlikeIndicesAux (size i : Nat) : List Nat :=
  if _h : i < size then (List.range 16).map (i + ·) ++ hexlikeIndicesAux size (i + 16)
  else []
termination_by size - i

def hexlikeIndices (size : Nat) : List Nat :=
  hexlikeIndicesAux size 0

/-- The decimal rendering of `print_storage`:
`o << uint32(_storage[i]) << " - "` for each byte. -/
def renderDec (storage : List Nat) : String :=
  String.join (storage.map (fun b => toString b ++ " - "))

/-- The character rendering of `textlike`: `o << char(_storage[i])`. -/
def renderText (storage : List Nat) : String :=
  String.mk (storage.map (fun b => Char.ofNat (b % 256)))

/-- One eight-byte group of the `hexlike` rendering (`o << _storage[i]`
inserts the `uint8` as character data; out-of-range indices are the
out-of-bounds reads recorded by `hexlikeIndices`, modelled as default 0). -/
def renderHexBlock (storage : List Nat) (i : Nat) : String :=
  String.mk ((List.range 8).map (fun k => Char.ofNat (storage.getD (i + k) 0 % 256)))

/-- The `hexlike` rendering loop: per outer iteration two eight-byte groups
followed by the separators of the inner `j` loop. -/
def renderHexAux (storage : List Nat) (i : Nat) : String :=
  if _h : i < storage.length then
    renderHexBlock storage i ++ " | " ++ renderHexBlock storage (i + 8) ++ "\n"
      ++ renderHexAux storage (i + 16)
  else ""
termination_by storage.length - i

/-- `ByteBuffer::print_storage() const`: returns without rendering unless the
trace-level "network" channel is enabled; when enabled, renders the storage
and emits it. `none` models producing no output. -/
def print_storage (traceEnabled : Bool) (storage : List Nat) : Option String :=
  if ! traceEnabled then none
  else some (renderDec storage)

/-- `ByteBuffer::textlike() const`, exactly as coded: the guard is
`if (networkLogger) return;` — it returns without output when the channel IS
enabled, and renders and emits (to a null logger) when it is disabled. -/
def textlike (traceEnabled : Bool) (storage : List Nat) : Option String :=
  if traceEnabled then none
  else some (renderText storage)

/-- `ByteBuffer::hexlike() const`: returns without rendering unless the
channel is enabled; when enabled, renders (with the overshooting loop) and
emits. -/
def hexlike (traceEnabled : Bool) (storage : List Nat) : Option String :=
  if ! traceEnabled then none
  else some (renderHexAux storage 0)

/-- A sequence of appends (each `.state` keeps the post-call buffer whether
the call succeeded or failed). -/
def appendAll (bb : ByteBuffer) (srcs : List (List Nat)) : ByteBuffer :=
  srcs.foldl (fun b s => (b.append s).state) bb

example : validUtf8 [0x41, 0x42] = true := by decide
example : validUtf8 [0xFF] = false := by decide
example : validUtf8 [0xC3, 0x28] = false := by decide
example : validUtf8 [0xC3, 0xA9] = true := by decide
example : hexlikeIndices 1 = List.range 16 := by
  simp [hexlikeIndices, hexlikeIndicesAux]
example : leToNat (natToLE 2 513) = 513 := by decide

/-! ### Basic facts about the embedded operations -/

theorem ResetBitPos_storage (bb : ByteBuffer) : bb.ResetBitPos.storage = bb.storage := by
  unfold ByteBuffer.ResetBitPos; split <;> rfl

theorem ResetBitPos_rpos (bb : ByteBuffer) : bb.ResetBitPos.rpos = bb.rpos := by
  unfold ByteBuffer.ResetBitPos; split <;> rfl

theorem ResetBitPos_wpos (bb : ByteBuffer) : bb.ResetBitPos.wpos = bb.wpos := by
  unfold ByteBuffer.ResetBitPos; split <;> rfl

theorem ResetBitPos_bitpos (bb : ByteBuffer) (h : bb.bitpos ≤ 8) :
    bb.ResetBitPos.bitpos = 8 := by
  unfold ByteBuffer.ResetBitPos
  split
  · omega
  · rfl

theorem FlushBits_byteAligned (bb : ByteBuffer) (h : bb.bitpos = 8) :
    bb.FlushBits = bb := by
  unfold ByteBuffer.FlushBits
  rw [if_pos h]

theorem storeAt_length_eq (st src : List Nat) :
    storeAt st st.length src = st ++ src := by
  unfold storeAt
  by_cases h : st.length < st.length + src.length
  · rw [if_pos h]
    dsimp only
    have h2 : st.length + src.length - st.length = src.length := by omega
    rw [h2, List.take_left' rfl,
      List.drop_eq_nil_of_le (by simp [Nat.add_comm]), List.append_nil]
  · have h2 : src.length = 0 := by omega
    have h3 : src = [] := List.length_eq_zero.mp h2
    subst h3
    simp

theorem append_ok_eq (bb : ByteBuffer) (src : List Nat)
    (h0 : src.length ≠ 0) (hc : bb.storage.length + src.length < 100000000)
    (hb : bb.bitpos = 8) (hw : bb.wpos = bb.storage.length) :
    bb.append src = .ok () { bb with
      storage := bb.storage ++ src
      capacity := capAfter bb.capacity (bb.wpos + src.length) (bb.storage.length + src.length)
      wpos := bb.wpos + src.length } := by
  unfold ByteBuffer.append
  rw [if_neg h0, if_neg (by omega), FlushBits_byteAligned bb hb]
  dsimp only
  rw [hw, storeAt_length_eq]
  simp

theorem append_err_state (bb : ByteBuffer) (src : List Nat)
    (h : src.length = 0 ∨ 100000000 ≤ bb.storage.length + src.length) :
    (bb.append src).isErr = true ∧ (bb.append src).state = bb := by
  unfold ByteBuffer.append
  rcases h with h | h
  · rw [if_pos h]; exact ⟨rfl, rfl⟩
  · by_cases h0 : src.length = 0
    · rw [if_pos h0]; exact ⟨rfl, rfl⟩
    · rw [if_neg h0, if_pos h]; exact ⟨rfl, rfl⟩

theorem append_ok_of_checks (bb : ByteBuffer) (src : List Nat)
    (h0 : src.length ≠ 0) (hc : bb.storage.length + src.length < 100000000) :
    (bb.append src).isOk = true := by
  unfold ByteBuffer.append
  rw [if_neg h0, if_neg (by omega)]
  rfl

theorem capAfter_le_left (cap n l : Nat) : cap ≤ capAfter cap n l := by
  unfold capAfter
  split <;> omega

theorem append_capacity_mono (bb : ByteBuffer) (src : List Nat) :
    bb.capacity ≤ (bb.append src).state.capacity := by
  unfold ByteBuffer.append
  by_cases h0 : src.length = 0
  · rw [if_pos h0]; exact Nat.le_refl _
  · rw [if_neg h0]
    by_cases hc : 100000000 ≤ bb.storage.length + src.length
    · rw [if_pos hc]; exact Nat.le_refl _
    · rw [if_neg hc]
      show bb.capacity ≤ capAfter bb.FlushBits.capacity _ _
      refine Nat.le_trans ?_ (capAfter_le_left _ _ _)
      unfold ByteBuffer.FlushBits
      split
      · exact Nat.le_refl _
      · exact capAfter_le_left _ _ _

theorem appendAll_capacity_mono (bb : ByteBuffer) (srcs : List (List Nat)) :
    bb.capacity ≤ (appendAll bb srcs).capacity := by
  induction srcs generalizing bb with
  | nil => exact Nat.le_refl _
  | cons s rest ih =>
    exact Nat.le_trans (append_capacity_mono bb s) (ih ((bb.append s).state))

/-! ### Diagnostic dump claims -/

/-- C4 (code bug in the source): the claim "no codec operation ever reads a
storage index outside the buffer" is violated by `hexlike`: on a one-byte
buffer its dump loop reads storage indices 0..15, of which 1..15 are not
below the buffer size, while `print_storage` accesses only in-range
indices. -/
theorem hexlike_reads_out_of_bounds :
    15 ∈ hexlikeIndices 1 ∧ ¬ 15 < 1 ∧ ∀ j ∈ printStorageIndices 1, j < 1 := by
  have h : hexlikeIndices 1 = List.range 16 := by
    simp [hexlikeIndices, hexlikeIndicesAux]
  rw [h]
  refine ⟨by decide, by omega, by decide⟩

/-- C5 (code bug in the source): `textlike` has its trace-channel guard
inverted (`if (networkLogger) return;`): with the channel active it returns
without rendering or emitting anything, and with the channel inactive it
renders the storage and emits it (through a null logger) — the exact
opposite of the claimed gating, which `print_storage` and `hexlike` do
follow. -/
theorem textlike_gate_inverted :
    textlike true [65] = none ∧
    textlike false [65] = some (renderText [65]) ∧
    print_storage true [65] = some (renderDec [65]) ∧
    print_storage false [65] = none ∧
    hexlike false [65] = none := by
  exact ⟨rfl, rfl, rfl, rfl, rfl⟩

/-! ### Append-path claims -/

/-- C7: `append(bytes)` fails — leaving the buffer exactly as it was —
precisely when the input is zero-length or the resulting size reaches the
hard 100000000-byte ceiling (a null pointer has no counterpart for a
`List`); otherwise it succeeds, placing the bytes at the write cursor and
advancing the write cursor by their count. -/
theorem append_fail_iff_contract :
    (∀ bb : ByteBuffer, ∀ src : List Nat, bb.wpos = bb.storage.length →
      ((bb.append src).isErr = true ↔
        (src.length = 0 ∨ 100000000 ≤ bb.storage.length + src.length)) ∧
      ((bb.append src).isErr = true → (bb.append src).state = bb)) ∧
    (∀ bb : ByteBuffer, ∀ src : List Nat, bb.wpos = bb.storage.length →
      bb.bitpos = 8 → src.length ≠ 0 → bb.storage.length + src.length < 100000000 →
      (bb.append src).isOk = true ∧
      (bb.append src).state.storage = bb.storage ++ src ∧
      (bb.append src).state.wpos = bb.wpos + src.length ∧
      (bb.append src).state.rpos = bb.rpos) := by
  constructor
  · intro bb src _hw
    constructor
    · constructor
      · intro herr
        by_contra hnot
        push_neg at hnot
        have := append_ok_of_checks bb src hnot.1 (by omega)
        cases hres : bb.append src with
        | ok v st => rw [hres] at herr; exact absurd herr (by simp [BBRes.isErr])
        | err e st => rw [hres] at this; exact absurd this (by simp [BBRes.isOk])
      · intro h
        exact (append_err_state bb src h).1
    · intro herr
      have h : src.length = 0 ∨ 100000000 ≤ bb.storage.length + src.length := by
        by_contra hnot
        push_neg at hnot
        have := append_ok_of_checks bb src hnot.1 (by omega)
        cases hres : bb.append src with
        | ok v st => rw [hres] at herr; exact absurd herr (by simp [BBRes.isErr])
        | err e st => rw [hres] at this; exact absurd this (by simp [BBRes.isOk])
      exact (append_err_state bb src h).2
  · intro bb src hw hb h0 hc
    rw [append_ok_eq bb src h0 hc hb hw]
    refine ⟨rfl, rfl, ?_, rfl⟩
    simp [BBRes.state]

/-- C7 witness: a concrete two-byte append onto a one-byte buffer. -/
theorem append_fail_iff_contract_witness :
    ((({ ByteBuffer.fresh with storage := [9], wpos := 1 } : ByteBuffer).wpos = 1 ∧
        ([7, 8] : List Nat).length ≠ 0) ∧
      (({ ByteBuffer.fresh with storage := [9], wpos := 1 } : ByteBuffer).append [7, 8]).isOk
          = true ∧
      (({ ByteBuffer.fresh with storage := [9], wpos := 1 } : ByteBuffer).append [7, 8]).state.storage
          = [9, 7, 8]) := by
  refine ⟨⟨rfl, by decide⟩, ?_⟩
  have h := append_fail_iff_contract.2
    { ByteBuffer.fresh with storage := [9], wpos := 1 } [7, 8]
    (by decide) (by decide) (by decide) (by decide)
  exact ⟨h.1, h.2.1⟩

set_option maxRecDepth 1000000

/-- C6 counterexample: from a fresh buffer, appending 99 bytes reserves the
first-tier capacity 300; the subsequent 2-byte append, which moves the total
size from 99 to 101 across the 100-byte table threshold, performs no
reservation at all — capacity stays 300 instead of growing to the next tier
2500, because 300 still suffices. -/
theorem growth_crossing_counterexample :
    ((ByteBuffer.fresh.append (List.replicate 99 0)).state.append
        (List.replicate 2 0)).state.capacity
      = (ByteBuffer.fresh.append (List.replicate 99 0)).state.capacity ∧
    ((ByteBuffer.fresh.append (List.replicate 99 0)).state.append
        (List.replicate 2 0)).state.capacity ≠ 2500 := by
  constructor
  · decide
  · decide

/-- C6 (amended): on the append path (write cursor at the end of storage, no
pending bits, non-empty input, below the ceiling) the staged reservation
table is applied exactly when current capacity is below the target size
`newSize = write cursor + count` (reserve 300 below 100, 2500 below 750,
10000 below 6000, else 400000 — the last tier clamped up when `newSize`
itself exceeds it); no reservation happens when capacity suffices; the
storage length afterwards is exactly the new write offset; and capacity
never decreases across any sequence of appends. Crossing a table threshold
does not by itself trigger a growth: a reservation happens only when the
target size exceeds the current capacity. -/
theorem append_growth_policy :
    (∀ bb : ByteBuffer, ∀ src : List Nat,
      bb.wpos = bb.storage.length → bb.bitpos = 8 →
      src.length ≠ 0 → bb.storage.length + src.length < 100000000 →
      (bb.append src).state.storage.length = bb.wpos + src.length ∧
      (bb.capacity < bb.wpos + src.length →
        (bb.append src).state.capacity =
          (if bb.wpos + src.length < 100 then 300
           else if bb.wpos + src.length < 750 then 2500
           else if bb.wpos + src.length < 6000 then 10000
           else max (max bb.capacity 400000) (bb.wpos + src.length))) ∧
      (bb.wpos + src.length ≤ bb.capacity →
        (bb.append src).state.capacity = bb.capacity)) ∧
    (∀ bb : ByteBuffer, ∀ srcs : List (List Nat),
      bb.capacity ≤ (appendAll bb srcs).capacity) := by
  constructor
  · intro bb src hw hb h0 hc
    rw [append_ok_eq bb src h0 hc hb hw]
    refine ⟨by simp [BBRes.state, hw], ?_, ?_⟩
    · intro hlt
      show capAfter bb.capacity (bb.wpos + src.length) (bb.storage.length + src.length) = _
      unfold capAfter reserveTarget
      rw [hw] at hlt ⊢
      rw [if_pos hlt]
      split_ifs <;> omega
    · intro hle
      show capAfter bb.capacity (bb.wpos + src.length) (bb.storage.length + src.length) = _
      unfold capAfter
      rw [hw] at hle ⊢
      rw [if_neg (by omega)]
      omega
  · exact appendAll_capacity_mono

/-- C6 witness: a three-byte target on a buffer with capacity 2 reserves the
first tier, 300. -/
theorem append_growth_policy_witness :
    (({ ByteBuffer.fresh with storage := [9], wpos := 1, capacity := 2 } : ByteBuffer).capacity
        < 1 + ([7, 8] : List Nat).length) ∧
    ((({ ByteBuffer.fresh with storage := [9], wpos := 1, capacity := 2 } : ByteBuffer).append
        [7, 8]).state.capacity = 300) := by
  refine ⟨by decide, ?_⟩
  have h := (append_growth_policy.1
    { ByteBuffer.fresh with storage := [9], wpos := 1, capacity := 2 } [7, 8]
    (by decide) (by decide) (by decide) (by decide)).2.1 (by decide)
  exact h.trans (by decide)

theorem FlushBits_bitpos (bb : ByteBuffer) : bb.FlushBits.bitpos = 8 := by
  unfold ByteBuffer.FlushBits
  split
  · assumption
  · rfl

theorem FlushBits_pending_eq (bb : ByteBuffer) (hb : bb.bitpos ≠ 8)
    (hw : bb.wpos = bb.storage.length) :
    bb.FlushBits = { bb with
      storage := bb.storage ++ [bb.curbitval]
      capacity := capAfter bb.capacity (bb.wpos + 1) (bb.storage.length + 1)
      wpos := bb.wpos + 1
      bitpos := 8
      curbitval := 0 } := by
  unfold ByteBuffer.FlushBits
  rw [if_neg hb]
  dsimp only
  rw [hw, storeAt_length_eq]
  simp

theorem append_flush_eq (bb : ByteBuffer) (src : List Nat)
    (h0 : src.length ≠ 0) (hc : bb.storage.length + src.length < 100000000)
    (hb : bb.bitpos ≠ 8) (hw : bb.wpos = bb.storage.length) :
    bb.append src = .ok () { bb with
      storage := bb.storage ++ [bb.curbitval] ++ src
      capacity := capAfter (capAfter bb.capacity (bb.wpos + 1) (bb.storage.length + 1))
        (bb.wpos + 1 + src.length) (bb.storage.length + 1 + src.length)
      wpos := bb.wpos + 1 + src.length
      bitpos := 8
      curbitval := 0 } := by
  unfold ByteBuffer.append
  rw [if_neg h0, if_neg (by omega), FlushBits_pending_eq bb hb hw]
  dsimp only
  have hlen : (bb.storage ++ [bb.curbitval]).length = bb.wpos + 1 := by simp [hw]
  rw [← hlen, storeAt_length_eq]
  simp [hw]
  congr 1
  omega

theorem put_state_eq (bb : ByteBuffer) (pos : Nat) (src : List Nat) :
    (bb.put pos src).state.bitpos = bb.bitpos ∧
    (bb.put pos src).state.curbitval = bb.curbitval ∧
    (bb.put pos src).state.wpos = bb.wpos ∧
    (bb.put pos src).state.rpos = bb.rpos := by
  unfold ByteBuffer.put
  split
  · exact ⟨rfl, rfl, rfl, rfl⟩
  · split
    · exact ⟨rfl, rfl, rfl, rfl⟩
    · exact ⟨rfl, rfl, rfl, rfl⟩

/-- C9 counterexample: a buffer with pending bit-cursor state
(`bitpos = 5`, `curbitval = 128`): `put` (the `write_at` overwrite) succeeds
but leaves the bit cursor mid-byte (5, not flushed to the byte boundary 8)
and does not write the pending byte — so a bit-packed run does straddle an
intervening `put`, contradicting the claim that every byte-aligned operation
including `write_at` first flushes pending bit-cursor state. -/
theorem put_does_not_flush_counterexample :
    (({ ByteBuffer.fresh with storage := [0, 0], wpos := 2, bitpos := 5, curbitval := 128 }
        : ByteBuffer).put 0 [7]).isOk = true ∧
    (({ ByteBuffer.fresh with storage := [0, 0], wpos := 2, bitpos := 5, curbitval := 128 }
        : ByteBuffer).put 0 [7]).state.bitpos = 5 ∧
    ¬ (5 : Nat) = 8 ∧
    (({ ByteBuffer.fresh with storage := [0, 0], wpos := 2, bitpos := 5, curbitval := 128 }
        : ByteBuffer).put 0 [7]).state.storage = [7, 0] := by
  exact ⟨by decide, by decide, by decide, by decide⟩

/-- C9 (amended): `append` does flush pending bit-cursor state before
touching the storage (on success the bit cursor is at the byte boundary,
and a pending partial byte is materialised at the old write cursor before
the appended bytes); the byte-level reads `ReadString`/`ReadCString` reset
the bit cursor before consuming; but `put` (`write_at`) does not flush: it
overwrites in place and leaves pending bit-cursor state and all cursors
untouched. -/
theorem byte_ops_bit_cursor_policy :
    (∀ bb : ByteBuffer, ∀ src : List Nat,
      (bb.append src).isOk = true → (bb.append src).state.bitpos = 8) ∧
    (∀ bb : ByteBuffer, ∀ src : List Nat,
      bb.bitpos ≠ 8 → bb.wpos = bb.storage.length →
      src.length ≠ 0 → bb.storage.length + src.length < 100000000 →
      (bb.append src).state.storage.getD bb.wpos 0 = bb.curbitval ∧
      (bb.append src).state.wpos = bb.wpos + 1 + src.length) ∧
    (∀ bb : ByteBuffer, ∀ len : Nat, ∀ v : Bool, bb.bitpos ≤ 8 →
      (bb.ReadString len v).isOk = true → (bb.ReadString len v).state.bitpos = 8) ∧
    (∀ bb : ByteBuffer, ∀ v : Bool, bb.bitpos ≤ 8 →
      (bb.ReadCString v).isOk = true → (bb.ReadCString v).state.bitpos = 8) ∧
    (∀ bb : ByteBuffer, ∀ pos : Nat, ∀ src : List Nat,
      (bb.put pos src).state.bitpos = bb.bitpos ∧
      (bb.put pos src).state.curbitval = bb.curbitval ∧
      (bb.put pos src).state.wpos = bb.wpos ∧
      (bb.put pos src).state.rpos = bb.rpos) := by
  refine ⟨?_, ?_, ?_, ?_, ?_⟩
  · intro bb src hok
    unfold ByteBuffer.append at hok ⊢
    split at hok
    · simp [BBRes.isOk] at hok
    · split at hok
      · simp [BBRes.isOk] at hok
      · simp only []
        rw [if_neg (by assumption), if_neg (by assumption)]
        exact FlushBits_bitpos bb
  · intro bb src hb hw h0 hc
    rw [append_flush_eq bb src h0 hc hb hw]
    constructor
    · show (bb.storage ++ [bb.curbitval] ++ src).getD bb.wpos 0 = bb.curbitval
      rw [List.append_assoc, List.getD_eq_getElem?_getD, hw,
        List.getElem?_append_right (Nat.le_refl _)]
      simp
    · rfl
  · intro bb len v hb hok
    by_cases h1 : bb.rpos + len > bb.storage.length
    · unfold ByteBuffer.ReadString at hok
      rw [if_pos h1] at hok
      simp [BBRes.isOk] at hok
    · unfold ByteBuffer.ReadString
      rw [if_neg h1]
      dsimp only
      by_cases h2 : len = 0
      · rw [if_pos h2]
        exact ResetBitPos_bitpos bb hb
      · rw [if_neg h2]
        by_cases h3 : (v && ! validUtf8
            (List.take len (List.drop bb.ResetBitPos.rpos bb.ResetBitPos.storage))) = true
        · rw [if_pos h3]
          exact ResetBitPos_bitpos bb hb
        · rw [if_neg h3]
          exact ResetBitPos_bitpos bb hb
  · intro bb v hb hok
    by_cases h1 : bb.rpos ≥ bb.storage.length
    · unfold ByteBuffer.ReadCString at hok
      rw [if_pos h1] at hok
      simp [BBRes.isOk] at hok
    · unfold ByteBuffer.ReadCString
      rw [if_neg h1]
      dsimp only
      cases hfz : findZeroIdx (List.drop bb.ResetBitPos.rpos bb.ResetBitPos.storage) with
      | none =>
        exact ResetBitPos_bitpos bb hb
      | some k =>
        dsimp only
        by_cases h3 : (v && ! validUtf8
            (List.take k (List.drop bb.ResetBitPos.rpos bb.ResetBitPos.storage))) = true
        · rw [if_pos h3]
          exact ResetBitPos_bitpos bb hb
        · rw [if_neg h3]
          exact ResetBitPos_bitpos bb hb
  · intro bb pos src
    exact put_state_eq bb pos src

/-- C9 witness: a concrete append with pending bits materialises the partial
byte before the payload. -/
theorem byte_ops_bit_cursor_policy_witness :
    ((5 : Nat) ≠ 8 ∧
      (({ ByteBuffer.fresh with storage := [1], wpos := 1, bitpos := 5, curbitval := 128 }
          : ByteBuffer).append [9]).state.storage.getD 1 0 = 128 ∧
      (({ ByteBuffer.fresh with storage := [1], wpos := 1, bitpos := 5, curbitval := 128 }
          : ByteBuffer).append [9]).state.wpos = 3) := by
  refine ⟨by decide, ?_, ?_⟩
  · exact (byte_ops_bit_cursor_policy.2.1
      { ByteBuffer.fresh with storage := [1], wpos := 1, bitpos := 5, curbitval := 128 } [9]
      (by decide) (by decide) (by decide) (by decide)).1
  · exact (byte_ops_bit_cursor_policy.2.1
      { ByteBuffer.fresh with storage := [1], wpos := 1, bitpos := 5, curbitval := 128 } [9]
      (by decide) (by decide) (by decide) (by decide)).2

theorem read_eq (bb : ByteBuffer) (len : Nat) :
    bb.read len =
      if bb.rpos + len > bb.storage.length then
        .err (.position bb.rpos len bb.storage.length) bb
      else
        .ok ((bb.storage.drop bb.rpos).take len) { bb.ResetBitPos with rpos := bb.rpos + len } := by
  unfold ByteBuffer.read
  by_cases h1 : bb.rpos + len > bb.storage.length
  · rw [if_pos h1, if_pos h1]
  · rw [if_neg h1, if_neg h1]
    dsimp only
    rw [ResetBitPos_storage, ResetBitPos_rpos]

theorem ReadString_eq (bb : ByteBuffer) (len : Nat) (v : Bool) :
    bb.ReadString len v =
      if bb.rpos + len > bb.storage.length then
        .err (.position bb.rpos len bb.storage.length) bb
      else if len = 0 then .ok [] bb.ResetBitPos
      else if (v && ! validUtf8 ((bb.storage.drop bb.rpos).take len)) = true then
        .err (.invalidValue "string") { bb.ResetBitPos with rpos := bb.rpos + len }
      else
        .ok ((bb.storage.drop bb.rpos).take len) { bb.ResetBitPos with rpos := bb.rpos + len } := by
  unfold ByteBuffer.ReadString
  by_cases h1 : bb.rpos + len > bb.storage.length
  · rw [if_pos h1, if_pos h1]
  · rw [if_neg h1, if_neg h1]
    dsimp only
    rw [ResetBitPos_storage, ResetBitPos_rpos]

theorem ReadCString_eq (bb : ByteBuffer) (v : Bool) :
    bb.ReadCString v =
      if bb.rpos ≥ bb.storage.length then
        .err (.position bb.rpos 1 bb.storage.length) bb
      else
        match findZeroIdx (bb.storage.drop bb.rpos) with
        | none => .err (.position bb.storage.length 1 bb.storage.length) bb.ResetBitPos
        | some k =>
          if (v && ! validUtf8 ((bb.storage.drop bb.rpos).take k)) = true then
            .err (.invalidValue "string") { bb.ResetBitPos with rpos := bb.rpos + k + 1 }
          else
            .ok ((bb.storage.drop bb.rpos).take k) { bb.ResetBitPos with rpos := bb.rpos + k + 1 } := by
  unfold ByteBuffer.ReadCString
  by_cases h1 : bb.rpos ≥ bb.storage.length
  · rw [if_pos h1, if_pos h1]
  · rw [if_neg h1, if_neg h1]
    dsimp only
    rw [ResetBitPos_storage, ResetBitPos_rpos]

theorem findZeroIdx_none_iff (l : List Nat) :
    findZeroIdx l = none ↔ ∀ b ∈ l, b ≠ 0 := by
  induction l with
  | nil => simp [findZeroIdx]
  | cons b rest ih =>
    unfold findZeroIdx
    by_cases hb : b = 0
    · rw [if_pos hb]
      simp [hb]
    · rw [if_neg hb]
      simp [hb, Option.map_eq_none, ih]

theorem findZeroIdx_some_of_first (l : List Nat) (k : Nat) (hk : k < l.length)
    (h0 : l.getD k 0 = 0) (hprev : ∀ j, j < k → l.getD j 0 ≠ 0) :
    findZeroIdx l = some k := by
  induction l generalizing k with
  | nil => simp at hk
  | cons b rest ih =>
    cases k with
    | zero =>
      simp only [List.getD_cons_zero] at h0
      unfold findZeroIdx
      rw [if_pos h0]
    | succ k =>
      have hb : b ≠ 0 := by
        have := hprev 0 (by omega)
        simpa using this
      unfold findZeroIdx
      rw [if_neg hb]
      have hrest : findZeroIdx rest = some k := by
        refine ih k (by simpa using hk) (by simpa using h0) ?_
        intro j hj
        have := hprev (j + 1) (by omega)
        simpa using this
      rw [hrest]
      rfl

theorem findZeroIdx_some_first (l : List Nat) (k : Nat) (h : findZeroIdx l = some k) :
    k < l.length ∧ l.getD k 0 = 0 ∧ ∀ j, j < k → l.getD j 0 ≠ 0 := by
  induction l generalizing k with
  | nil => simp [findZeroIdx] at h
  | cons b rest ih =>
    unfold findZeroIdx at h
    by_cases hb : b = 0
    · rw [if_pos hb] at h
      cases h
      refine ⟨by simp, by simpa using hb, ?_⟩
      intro j hj
      omega
    · rw [if_neg hb] at h
      cases hfz : findZeroIdx rest with
      | none => rw [hfz] at h; simp at h
      | some m =>
        rw [hfz] at h
        have hkm : k = m + 1 := by
          simp at h
          omega
        subst hkm
        obtain ⟨h1, h2, h3⟩ := ih m hfz
        refine ⟨by simpa using h1, by simpa using h2, ?_⟩
        intro j hj
        cases j with
        | zero => simpa using hb
        | succ j =>
          have := h3 j (by omega)
          simpa using this

/-- C1 counterexample: reading a 1-byte string from the buffer `[0xFF]` with
UTF-8 validation: the length is sufficient, the content invalid, and the
invalid-value failure leaves the read cursor at 1, not at its pre-call
value 0 — the claim that a failed InvalidValueError operation does not
advance the cursor is false. -/
theorem invalid_value_advances_cursor_counterexample :
    (({ ByteBuffer.fresh with storage := [255], wpos := 1 } : ByteBuffer).ReadString 1
        true).isInvalid = true ∧
    (({ ByteBuffer.fresh with storage := [255], wpos := 1 } : ByteBuffer).ReadString 1
        true).state.rpos = 1 ∧
    ({ ByteBuffer.fresh with storage := [255], wpos := 1 } : ByteBuffer).rpos = 0 ∧
    ¬ (1 : Nat) = 0 := by
  exact ⟨by decide, by decide, by decide, by decide⟩

/-- C1 (amended): an operation failing with a PositionError leaves the read
and write cursors (indeed, for all but the no-terminator case of
`ReadCString`, the whole state) unchanged; an operation failing with an
InvalidValueError (malformed UTF-8, non-finite floating value) raises the
failure only after the read cursor has already advanced past the consumed
bytes. -/
theorem error_cursor_discipline :
    (∀ bb : ByteBuffer, ∀ len : Nat, ∀ v : Bool,
      (bb.ReadString len v).isPosErr = true → (bb.ReadString len v).state = bb) ∧
    (∀ bb : ByteBuffer, ∀ len : Nat,
      (bb.read len).isPosErr = true → (bb.read len).state = bb) ∧
    (∀ bb : ByteBuffer, ∀ v : Bool, (bb.ReadCString v).isPosErr = true →
      (bb.ReadCString v).state.rpos = bb.rpos ∧ (bb.ReadCString v).state.wpos = bb.wpos) ∧
    (∀ bb : ByteBuffer, bb.readFloat.isPosErr = true → bb.readFloat.state = bb) ∧
    (∀ bb : ByteBuffer, bb.readDouble.isPosErr = true → bb.readDouble.state = bb) ∧
    (∀ bb : ByteBuffer, ∀ len : Nat, ∀ v : Bool, (bb.ReadString len v).isInvalid = true →
      (bb.ReadString len v).state.rpos = bb.rpos + len ∧
      (bb.ReadString len v).state.wpos = bb.wpos) ∧
    (∀ bb : ByteBuffer, ∀ v : Bool, (bb.ReadCString v).isInvalid = true →
      bb.rpos < (bb.ReadCString v).state.rpos ∧ (bb.ReadCString v).state.wpos = bb.wpos) ∧
    (∀ bb : ByteBuffer, bb.readFloat.isInvalid = true →
      bb.readFloat.state.rpos = bb.rpos + 4) ∧
    (∀ bb : ByteBuffer, bb.readDouble.isInvalid = true →
      bb.readDouble.state.rpos = bb.rpos + 8) := by
  refine ⟨?_, ?_, ?_, ?_, ?_, ?_, ?_, ?_, ?_⟩
  · intro bb len v h
    rw [ReadString_eq] at h ⊢
    split_ifs at h ⊢ with h1 h2 h3
    · rfl
    all_goals simp [BBRes.isPosErr] at h
  · intro bb len h
    rw [read_eq] at h ⊢
    split_ifs at h ⊢ with h1
    · rfl
    · simp [BBRes.isPosErr] at h
  · intro bb v h
    rw [ReadCString_eq] at h ⊢
    split_ifs at h ⊢ with h1
    · exact ⟨rfl, rfl⟩
    · cases hfz : findZeroIdx (bb.storage.drop bb.rpos) with
      | none =>
        exact ⟨ResetBitPos_rpos bb, ResetBitPos_wpos bb⟩
      | some k =>
        rw [hfz] at h
        dsimp only at h
        split_ifs at h with h3
        all_goals simp [BBRes.isPosErr] at h
  · intro bb h
    unfold ByteBuffer.readFloat at h ⊢
    rw [read_eq] at h ⊢
    split_ifs at h ⊢ with h1
    · rfl
    · dsimp only at h ⊢
      split_ifs at h ⊢ with h2
      all_goals simp [BBRes.isPosErr] at h
  · intro bb h
    unfold ByteBuffer.readDouble at h ⊢
    rw [read_eq] at h ⊢
    split_ifs at h ⊢ with h1
    · rfl
    · dsimp only at h ⊢
      split_ifs at h ⊢ with h2
      all_goals simp [BBRes.isPosErr] at h
  · intro bb len v h
    rw [ReadString_eq] at h ⊢
    split_ifs at h ⊢ with h1 h2 h3
    · simp [BBRes.isInvalid] at h
    · simp [BBRes.isInvalid] at h
    · exact ⟨by rw [BBRes.state], by rw [BBRes.state]; exact ResetBitPos_wpos bb⟩
    · simp [BBRes.isInvalid] at h
  · intro bb v h
    rw [ReadCString_eq] at h ⊢
    split_ifs at h ⊢ with h1
    · simp [BBRes.isInvalid] at h
    · cases hfz : findZeroIdx (bb.storage.drop bb.rpos) with
      | none =>
        rw [hfz] at h
        simp [BBRes.isInvalid] at h
      | some k =>
        rw [hfz] at h
        dsimp only at h ⊢
        by_cases h3 : (v && ! validUtf8 (List.take k (List.drop bb.rpos bb.storage))) = true
        · rw [if_pos h3]
          refine ⟨?_, ?_⟩
          · show bb.rpos < bb.rpos + k + 1
            omega
          · show bb.ResetBitPos.wpos = bb.wpos
            exact ResetBitPos_wpos bb
        · rw [if_neg h3] at h
          simp [BBRes.isInvalid] at h
  · intro bb h
    unfold ByteBuffer.readFloat at h ⊢
    rw [read_eq] at h ⊢
    split_ifs at h ⊢ with h1
    · simp [BBRes.isInvalid] at h
    · dsimp only at h ⊢
      split_ifs at h ⊢ with h2
      · rw [BBRes.state]
      · simp [BBRes.isInvalid] at h
  · intro bb h
    unfold ByteBuffer.readDouble at h ⊢
    rw [read_eq] at h ⊢
    split_ifs at h ⊢ with h1
    · simp [BBRes.isInvalid] at h
    · dsimp only at h ⊢
      split_ifs at h ⊢ with h2
      · rw [BBRes.state]
      · simp [BBRes.isInvalid] at h

/-- C1 witness: a concrete short read fails with a PositionError and leaves
the state untouched. -/
theorem error_cursor_discipline_witness :
    (ByteBuffer.fresh.ReadString 1 true).isPosErr = true ∧
    (ByteBuffer.fresh.ReadString 1 true).state = ByteBuffer.fresh := by
  refine ⟨by decide, ?_⟩
  exact error_cursor_discipline.1 ByteBuffer.fresh 1 true (by decide)

theorem ByteBuffer_set_rpos_eta (st : ByteBuffer) (r : Nat) (h : st.rpos = r) :
    ({ st with rpos := r } : ByteBuffer) = st := by
  subst h
  rfl

/-- C10: `ReadCString` consumes bytes up to and including the first zero byte
after the read cursor (`findZeroIdx` returns exactly the index of the first
zero), returns the bytes excluding the terminator and advances the read
cursor past it; it fails with a position error whenever no zero byte exists
in the unread tail (including an empty tail), and with an invalid-value
error when validation is requested and the returned bytes are not
well-formed UTF-8. -/
theorem ReadCString_contract :
    (∀ l : List Nat, ∀ k : Nat, findZeroIdx l = some k →
      k < l.length ∧ l.getD k 0 = 0 ∧ ∀ j, j < k → l.getD j 0 ≠ 0) ∧
    (∀ bb : ByteBuffer, ∀ v : Bool,
      (∀ b ∈ bb.storage.drop bb.rpos, b ≠ 0) → (bb.ReadCString v).isPosErr = true) ∧
    (∀ bb : ByteBuffer, ∀ v : Bool, ∀ k : Nat,
      k < (bb.storage.drop bb.rpos).length →
      (bb.storage.drop bb.rpos).getD k 0 = 0 →
      (∀ j, j < k → (bb.storage.drop bb.rpos).getD j 0 ≠ 0) →
      ((v = false ∨ validUtf8 ((bb.storage.drop bb.rpos).take k) = true →
        bb.ReadCString v = .ok ((bb.storage.drop bb.rpos).take k)
          { bb.ResetBitPos with rpos := bb.rpos + k + 1 }) ∧
      (v = true → validUtf8 ((bb.storage.drop bb.rpos).take k) = false →
        (bb.ReadCString v).isInvalid = true ∧
        (bb.ReadCString v).state.rpos = bb.rpos + k + 1))) := by
  refine ⟨findZeroIdx_some_first, ?_, ?_⟩
  · intro bb v hall
    rw [ReadCString_eq]
    by_cases h1 : bb.rpos ≥ bb.storage.length
    · rw [if_pos h1]
      rfl
    · rw [if_neg h1]
      rw [(findZeroIdx_none_iff (bb.storage.drop bb.rpos)).mpr hall]
      rfl
  · intro bb v k hk h0 hprev
    have hfz : findZeroIdx (bb.storage.drop bb.rpos) = some k :=
      findZeroIdx_some_of_first _ k hk h0 hprev
    have h1 : ¬ bb.rpos ≥ bb.storage.length := by
      rw [List.length_drop] at hk
      omega
    constructor
    · intro hv
      rw [ReadCString_eq, if_neg h1, hfz]
      dsimp only
      have h3 : ¬ (v && ! validUtf8 ((bb.storage.drop bb.rpos).take k)) = true := by
        rcases hv with hv | hv
        · rw [hv]
          simp
        · rw [hv]
          simp
      rw [if_neg h3]
    · intro hv huv
      rw [ReadCString_eq, if_neg h1, hfz]
      dsimp only
      have h3 : (v && ! validUtf8 ((bb.storage.drop bb.rpos).take k)) = true := by
        rw [hv, huv]
        rfl
      rw [if_pos h3]
      constructor
      · rfl
      · show bb.rpos + k + 1 = bb.rpos + k + 1
        rfl

/-- C10 witness: reading the C string "A" from the buffer `[65, 0, 7]`. -/
theorem ReadCString_contract_witness :
    (({ ByteBuffer.fresh with storage := [65, 0, 7], wpos := 3 } : ByteBuffer).ReadCString true
        = .ok [65] { ({ ByteBuffer.fresh with storage := [65, 0, 7], wpos := 3 }
            : ByteBuffer).ResetBitPos with rpos := 0 + 1 + 1 }) := by
  exact ((ReadCString_contract.2.2
    { ByteBuffer.fresh with storage := [65, 0, 7], wpos := 3 } true 1
    (by decide) (by decide) (by decide)).1 (Or.inr (by decide)))

/-- C8: a read fails with InvalidValueError exactly when enough bytes are
available but the content is invalid: with validation requested,
`ReadString`/`ReadCString` fail precisely on bytes that are not well-formed
UTF-8 and succeed returning the raw bytes when validation is disabled; a 32-
or 64-bit floating read fails precisely when the decoded bit pattern is
non-finite and succeeds otherwise. -/
theorem invalid_value_conditions :
    (∀ bb : ByteBuffer, ∀ len : Nat, bb.rpos + len ≤ bb.storage.length →
      ((bb.ReadString len true).isInvalid = true ↔
        validUtf8 ((bb.storage.drop bb.rpos).take len) = false) ∧
      bb.ReadString len false = .ok ((bb.storage.drop bb.rpos).take len)
        { bb.ResetBitPos with rpos := bb.rpos + len }) ∧
    (∀ bb : ByteBuffer, ∀ k : Nat, findZeroIdx (bb.storage.drop bb.rpos) = some k →
      ((bb.ReadCString true).isInvalid = true ↔
        validUtf8 ((bb.storage.drop bb.rpos).take k) = false) ∧
      bb.ReadCString false = .ok ((bb.storage.drop bb.rpos).take k)
        { bb.ResetBitPos with rpos := bb.rpos + k + 1 }) ∧
    (∀ bb : ByteBuffer, bb.rpos + 4 ≤ bb.storage.length →
      (bb.readFloat.isInvalid = true ↔
        isFinite32 (leToNat ((bb.storage.drop bb.rpos).take 4)) = false) ∧
      (isFinite32 (leToNat ((bb.storage.drop bb.rpos).take 4)) = true →
        bb.readFloat = .ok (leToNat ((bb.storage.drop bb.rpos).take 4))
          { bb.ResetBitPos with rpos := bb.rpos + 4 })) ∧
    (∀ bb : ByteBuffer, bb.rpos + 8 ≤ bb.storage.length →
      (bb.readDouble.isInvalid = true ↔
        isFinite64 (leToNat ((bb.storage.drop bb.rpos).take 8)) = false) ∧
      (isFinite64 (leToNat ((bb.storage.drop bb.rpos).take 8)) = true →
        bb.readDouble = .ok (leToNat ((bb.storage.drop bb.rpos).take 8))
          { bb.ResetBitPos with rpos := bb.rpos + 8 })) := by
  refine ⟨?_, ?_, ?_, ?_⟩
  · intro bb len hle
    have h1 : ¬ bb.rpos + len > bb.storage.length := by omega
    constructor
    · rw [ReadString_eq, if_neg h1]
      by_cases h2 : len = 0
      · rw [if_pos h2]
        subst h2
        simp [BBRes.isInvalid]
        rfl
      · rw [if_neg h2]
        by_cases h3 : validUtf8 ((bb.storage.drop bb.rpos).take len) = false
        · rw [if_pos (by rw [h3]; rfl)]
          simp [BBRes.isInvalid, h3]
        · have h3t : validUtf8 ((bb.storage.drop bb.rpos).take len) = true := by
            cases hv : validUtf8 ((bb.storage.drop bb.rpos).take len)
            · exact absurd hv h3
            · rfl
          rw [if_neg (by rw [h3t]; simp)]
          simp [BBRes.isInvalid, h3t]
    · rw [ReadString_eq, if_neg h1]
      by_cases h2 : len = 0
      · subst h2
        rw [if_pos rfl]
        rw [ByteBuffer_set_rpos_eta bb.ResetBitPos (bb.rpos + 0) (by rw [ResetBitPos_rpos]; omega)]
        rfl
      · rw [if_neg h2, if_neg (by simp)]
  · intro bb k hfz
    have hk := (findZeroIdx_some_first _ k hfz).1
    have h1 : ¬ bb.rpos ≥ bb.storage.length := by
      rw [List.length_drop] at hk
      omega
    constructor
    · rw [ReadCString_eq, if_neg h1, hfz]
      dsimp only
      by_cases h3 : validUtf8 ((bb.storage.drop bb.rpos).take k) = false
      · rw [if_pos (by rw [h3]; rfl)]
        simp [BBRes.isInvalid, h3]
      · have h3t : validUtf8 ((bb.storage.drop bb.rpos).take k) = true := by
          cases hv : validUtf8 ((bb.storage.drop bb.rpos).take k)
          · exact absurd hv h3
          · rfl
        rw [if_neg (by rw [h3t]; simp)]
        simp [BBRes.isInvalid, h3t]
    · rw [ReadCString_eq, if_neg h1, hfz]
      dsimp only
      rw [if_neg (by simp)]
  · intro bb hle
    have h1 : ¬ bb.rpos + 4 > bb.storage.length := by omega
    unfold ByteBuffer.readFloat
    rw [read_eq, if_neg h1]
    dsimp only
    constructor
    · by_cases h2 : isFinite32 (leToNat ((bb.storage.drop bb.rpos).take 4)) = false
      · rw [if_pos (by rw [h2]; rfl)]
        simp [BBRes.isInvalid, h2]
      · have h2t : isFinite32 (leToNat ((bb.storage.drop bb.rpos).take 4)) = true := by
          cases hv : isFinite32 (leToNat ((bb.storage.drop bb.rpos).take 4))
          · exact absurd hv h2
          · rfl
        rw [if_neg (by rw [h2t]; simp)]
        simp [BBRes.isInvalid, h2t]
    · intro h2
      rw [if_neg (by rw [h2]; simp)]
  · intro bb hle
    have h1 : ¬ bb.rpos + 8 > bb.storage.length := by omega
    unfold ByteBuffer.readDouble
    rw [read_eq, if_neg h1]
    dsimp only
    constructor
    · by_cases h2 : isFinite64 (leToNat ((bb.storage.drop bb.rpos).take 8)) = false
      · rw [if_pos (by rw [h2]; rfl)]
        simp [BBRes.isInvalid, h2]
      · have h2t : isFinite64 (leToNat ((bb.storage.drop bb.rpos).take 8)) = true := by
          cases hv : isFinite64 (leToNat ((bb.storage.drop bb.rpos).take 8))
          · exact absurd hv h2
          · rfl
        rw [if_neg (by rw [h2t]; simp)]
        simp [BBRes.isInvalid, h2t]
    · intro h2
      rw [if_neg (by rw [h2]; simp)]

/-- C8 witness: the 4-byte pattern of +infinity (0x7F800000) is read as an
InvalidValueError, and the same buffer read without the finite condition
being violated. -/
theorem invalid_value_conditions_witness :
    (({ ByteBuffer.fresh with storage := [0, 0, 128, 127], wpos := 4 }
        : ByteBuffer).readFloat.isInvalid = true) ∧
    (({ ByteBuffer.fresh with storage := [255], wpos := 1 } : ByteBuffer).ReadString 1
        true).isInvalid = true := by
  constructor
  · exact (invalid_value_conditions.2.2.1
      { ByteBuffer.fresh with storage := [0, 0, 128, 127], wpos := 4 }
      (by decide)).1.mpr (by decide)
  · exact (invalid_value_conditions.1
      { ByteBuffer.fresh with storage := [255], wpos := 1 } 1 (by decide)).1.mpr (by decide)

theorem natToLE_length (n v : Nat) : (natToLE n v).length = n := by
  induction n generalizing v with
  | zero => rfl
  | succ n ih => simp [natToLE, ih]

theorem leToNat_natToLE (n v : Nat) : leToNat (natToLE n v) = v % 256 ^ n := by
  induction n generalizing v with
  | zero => simp [natToLE, leToNat, Nat.mod_one]
  | succ n ih =>
    show v % 256 + 256 * leToNat (natToLE n (v / 256)) = v % 256 ^ (n + 1)
    rw [ih, pow_succ, Nat.mul_comm (256 ^ n) 256, Nat.mod_mul]

theorem decodeSigned_intToLE (n : Nat) (hn : 0 < n) (v : Int)
    (h1 : -(128 * (256 : Int) ^ (n - 1)) ≤ v) (h2 : v < 128 * (256 : Int) ^ (n - 1)) :
    decodeSigned n (leToNat (intToLE n v)) = v := by
  obtain ⟨m, rfl⟩ : ∃ m, n = m + 1 := ⟨n - 1, by omega⟩
  simp only [Nat.add_sub_cancel] at h1 h2
  have hM2 : ((256 : Int) ^ (m + 1)) = 2 * (128 * (256 : Int) ^ m) := by ring
  have hMpos : (0 : Int) < (256 : Int) ^ (m + 1) := by positivity
  have he0 : 0 ≤ v % (256 : Int) ^ (m + 1) := Int.emod_nonneg v (by omega)
  have helt : v % (256 : Int) ^ (m + 1) < (256 : Int) ^ (m + 1) :=
    Int.emod_lt_of_pos v hMpos
  have hcast : ((256 ^ (m + 1) : Nat) : Int) = (256 : Int) ^ (m + 1) := by push_cast; ring
  have hcastm : ((256 ^ m : Nat) : Int) = (256 : Int) ^ m := by push_cast; ring
  have hhalf : (256 : Nat) ^ (m + 1) / 2 = 128 * 256 ^ m := by
    have hx : (256 : Nat) ^ (m + 1) = 2 * (128 * 256 ^ m) := by ring
    omega
  unfold intToLE decodeSigned
  rw [leToNat_natToLE]
  have hult : (v % (256 : Int) ^ (m + 1)).toNat < 256 ^ (m + 1) := by
    have h3 : ((v % (256 : Int) ^ (m + 1)).toNat : Int) = v % (256 : Int) ^ (m + 1) :=
      Int.toNat_of_nonneg he0
    have h5 : ((v % (256 : Int) ^ (m + 1)).toNat : Int) < ((256 ^ (m + 1) : Nat) : Int) := by
      rw [h3, hcast]
      exact helt
    exact_mod_cast h5
  rw [Nat.mod_eq_of_lt hult, hhalf]
  by_cases hv : 0 ≤ v
  · have hemod : v % (256 : Int) ^ (m + 1) = v := by
      refine Int.emod_eq_of_lt hv ?_
      rw [hM2]
      omega
    rw [hemod]
    have h2n : v < (128 : Int) * ((256 ^ m : Nat) : Int) := by rw [hcastm]; exact h2
    rw [if_pos (by omega)]
    omega
  · have hvn : v < 0 := by omega
    have hemod : v % (256 : Int) ^ (m + 1) = v + (256 : Int) ^ (m + 1) := by
      have heq : (v + (256 : Int) ^ (m + 1)) % ((256 : Int) ^ (m + 1))
          = v % ((256 : Int) ^ (m + 1)) := by
        have hstep := Int.add_mul_emod_self_left v ((256 : Int) ^ (m + 1)) 1
        rw [Int.mul_one] at hstep
        exact hstep
      rw [← heq]
      refine Int.emod_eq_of_lt (by omega) (by omega)
    rw [hemod]
    have h1n : -((128 : Int) * ((256 ^ m : Nat) : Int)) ≤ v := by rw [hcastm]; exact h1
    have hM2n : (256 : Int) ^ (m + 1) = 2 * (128 * ((256 ^ m : Nat) : Int)) := by
      rw [hcastm]
      exact hM2
    rw [if_neg (by omega)]
    omega

theorem append_then_read_eq (bb : ByteBuffer) (bytes : List Nat)
    (hb : bb.bitpos = 8) (hr : bb.rpos = bb.wpos) (hw : bb.wpos = bb.storage.length)
    (h0 : bytes.length ≠ 0) (hc : bb.storage.length + bytes.length < 100000000) :
    ∃ st : ByteBuffer, (bb.append bytes).state.read bytes.length = .ok bytes st := by
  rw [append_ok_eq bb bytes h0 hc hb hw]
  rw [read_eq]
  dsimp only [BBRes.state]
  rw [if_neg (by simp only [List.length_append]; omega)]
  have hval : List.take bytes.length (List.drop bb.rpos (bb.storage ++ bytes)) = bytes := by
    rw [hr, hw, List.drop_left, List.take_length]
  rw [hval]
  exact ⟨_, rfl⟩

theorem readUInt_val (bb : ByteBuffer) (n : Nat) :
    (bb.readUInt n).val? = (bb.read n).val?.map leToNat := by
  unfold ByteBuffer.readUInt
  cases bb.read n <;> rfl

theorem readInt_val (bb : ByteBuffer) (n : Nat) :
    (bb.readInt n).val? = (bb.read n).val?.map (fun bs => decodeSigned n (leToNat bs)) := by
  unfold ByteBuffer.readInt
  cases bb.read n <;> rfl

/-- C3: for every supported fixed-width type (unsigned and signed integers of
1, 2, 4 or 8 bytes — any positive width is covered — and 32/64-bit floating
bit patterns with a finite exponent), a write followed by a read at the same
logical position succeeds and returns exactly the written value. -/
theorem write_read_roundtrip :
    (∀ bb : ByteBuffer, ∀ n v : Nat, bb.bitpos = 8 → bb.rpos = bb.wpos →
      bb.wpos = bb.storage.length → 0 < n → v < 256 ^ n →
      bb.storage.length + n < 100000000 →
      ((bb.writeUInt n v).state.readUInt n).val? = some v) ∧
    (∀ bb : ByteBuffer, ∀ n : Nat, ∀ v : Int, bb.bitpos = 8 → bb.rpos = bb.wpos →
      bb.wpos = bb.storage.length → 0 < n →
      -(128 * (256 : Int) ^ (n - 1)) ≤ v → v < 128 * (256 : Int) ^ (n - 1) →
      bb.storage.length + n < 100000000 →
      ((bb.writeInt n v).state.readInt n).val? = some v) ∧
    (∀ bb : ByteBuffer, ∀ w : Nat, bb.bitpos = 8 → bb.rpos = bb.wpos →
      bb.wpos = bb.storage.length → isFinite32 w = true → w < 2 ^ 32 →
      bb.storage.length + 4 < 100000000 →
      ((bb.writeFloat w).state.readFloat).val? = some w) ∧
    (∀ bb : ByteBuffer, ∀ w : Nat, bb.bitpos = 8 → bb.rpos = bb.wpos →
      bb.wpos = bb.storage.length → isFinite64 w = true → w < 2 ^ 64 →
      bb.storage.length + 8 < 100000000 →
      ((bb.writeDouble w).state.readDouble).val? = some w) := by
  refine ⟨?_, ?_, ?_, ?_⟩
  · intro bb n v hb hr hw hn hv hc
    have hlen : (natToLE n v).length = n := natToLE_length n v
    obtain ⟨st, hread⟩ := append_then_read_eq bb (natToLE n v) hb hr hw (by omega) (by omega)
    rw [hlen] at hread
    unfold ByteBuffer.writeUInt
    rw [readUInt_val, hread]
    show some (leToNat (natToLE n v)) = some v
    rw [leToNat_natToLE, Nat.mod_eq_of_lt hv]
  · intro bb n v hb hr hw hn h1 h2 hc
    have hlen : (intToLE n v).length = n := natToLE_length n _
    obtain ⟨st, hread⟩ := append_then_read_eq bb (intToLE n v) hb hr hw (by omega) (by omega)
    rw [hlen] at hread
    unfold ByteBuffer.writeInt
    rw [readInt_val, hread]
    show some (decodeSigned n (leToNat (intToLE n v))) = some v
    rw [decodeSigned_intToLE n hn v h1 h2]
  · intro bb w hb hr hw hf hv hc
    have hlen : (natToLE 4 w).length = 4 := natToLE_length 4 w
    obtain ⟨st, hread⟩ := append_then_read_eq bb (natToLE 4 w) hb hr hw (by omega) (by omega)
    rw [hlen] at hread
    have hww : leToNat (natToLE 4 w) = w := by
      rw [leToNat_natToLE]
      refine Nat.mod_eq_of_lt ?_
      have h256 : (256 : Nat) ^ 4 = 2 ^ 32 := by norm_num
      omega
    unfold ByteBuffer.writeFloat ByteBuffer.readFloat
    rw [hread]
    dsimp only
    rw [hww, if_neg (by rw [hf]; simp)]
    rfl
  · intro bb w hb hr hw hf hv hc
    have hlen : (natToLE 8 w).length = 8 := natToLE_length 8 w
    obtain ⟨st, hread⟩ := append_then_read_eq bb (natToLE 8 w) hb hr hw (by omega) (by omega)
    rw [hlen] at hread
    have hww : leToNat (natToLE 8 w) = w := by
      rw [leToNat_natToLE]
      refine Nat.mod_eq_of_lt ?_
      have h256 : (256 : Nat) ^ 8 = 2 ^ 64 := by norm_num
      omega
    unfold ByteBuffer.writeDouble ByteBuffer.readDouble
    rw [hread]
    dsimp only
    rw [hww, if_neg (by rw [hf]; simp)]
    rfl

/-- C3 witness: a two-byte unsigned roundtrip of 513 and a one-byte signed
roundtrip of -5 on a fresh buffer. -/
theorem write_read_roundtrip_witness :
    ((0 < 2 ∧ 513 < 256 ^ 2) ∧
      ((ByteBuffer.fresh.writeUInt 2 513).state.readUInt 2).val? = some 513) ∧
    ((ByteBuffer.fresh.writeInt 1 (-5)).state.readInt 1).val? = some (-5) := by
  refine ⟨⟨⟨by decide, by decide⟩, ?_⟩, ?_⟩
  · exact write_read_roundtrip.1 ByteBuffer.fresh 2 513 rfl rfl rfl
      (by decide) (by decide) (by decide)
  · exact write_read_roundtrip.2.1 ByteBuffer.fresh 1 (-5) rfl rfl rfl
      (by decide) (by norm_num) (by norm_num) (by decide)

theorem getD_set_self (l : List Nat) (i x : Nat) (h : i < l.length) :
    (l.set i x).getD i 0 = x := by
  simp [List.getD_eq_getElem?_getD, List.getElem?_set_self (by simpa using h)]

theorem getD_set_ne (l : List Nat) (i j x : Nat) (h : i ≠ j) :
    (l.set i x).getD j 0 = l.getD j 0 := by
  simp [List.getD_eq_getElem?_getD, List.getElem?_set_ne h]

theorem length_setBitMSB (st : List Nat) (j : Nat) (b : Bool) :
    (setBitMSB st j b).length = st.length := by
  unfold setBitMSB
  split <;> simp

theorem testBit_byte_lt8 (s : Nat) (hs : s < 8) (_x : Nat) :
    (255 ^^^ (1 <<< s)).testBit s = false ∧
    ∀ t, t < 8 → t ≠ s → (255 ^^^ (1 <<< s)).testBit t = true := by
  constructor
  · rw [Nat.testBit_xor, Nat.one_shiftLeft, Nat.testBit_two_pow_self]
    have h255 : (255 : Nat) = 2 ^ 8 - 1 := by norm_num
    rw [h255, Nat.testBit_two_pow_sub_one]
    simp [hs]
  · intro t ht hts
    rw [Nat.testBit_xor, Nat.one_shiftLeft, Nat.testBit_two_pow_of_ne (fun he => hts he.symm)]
    have h255 : (255 : Nat) = 2 ^ 8 - 1 := by norm_num
    rw [h255, Nat.testBit_two_pow_sub_one]
    simp [ht]

theorem getBitMSB_setBitMSB_self (st : List Nat) (j : Nat) (b : Bool)
    (h : j / 8 < st.length) :
    getBitMSB (setBitMSB st j b) j = b := by
  unfold getBitMSB setBitMSB
  cases b with
  | true =>
    dsimp only
    rw [if_pos rfl, getD_set_self _ _ _ h, Nat.testBit_or, Nat.one_shiftLeft,
      Nat.testBit_two_pow_self]
    simp
  | false =>
    dsimp only
    rw [if_neg (by simp), getD_set_self _ _ _ h, Nat.testBit_and,
      (testBit_byte_lt8 (7 - j % 8) (by omega) (st.getD (j / 8) 0)).1]
    simp

theorem getBitMSB_setBitMSB_ne (st : List Nat) (j k : Nat) (b : Bool)
    (h : j / 8 < st.length) (hne : k ≠ j) :
    getBitMSB (setBitMSB st j b) k = getBitMSB st k := by
  unfold getBitMSB setBitMSB
  by_cases hbyte : k / 8 = j / 8
  · have hbit : k % 8 ≠ j % 8 := by omega
    have hbit7 : 7 - k % 8 ≠ 7 - j % 8 := by omega
    cases b with
    | true =>
      dsimp only
      rw [if_pos rfl, hbyte, getD_set_self _ _ _ h, Nat.testBit_or, Nat.one_shiftLeft,
        Nat.testBit_two_pow_of_ne (fun he => hbit7 he.symm)]
      simp
    | false =>
      dsimp only
      rw [if_neg (by simp), hbyte, getD_set_self _ _ _ h, Nat.testBit_and,
        (testBit_byte_lt8 (7 - j % 8) (by omega) (st.getD (j / 8) 0)).2 (7 - k % 8)
          (by omega) hbit7]
      simp
  · cases b with
    | true =>
      dsimp only
      rw [if_pos rfl, getD_set_ne _ _ _ _ (fun he => hbyte he.symm)]
    | false =>
      dsimp only
      rw [if_neg (by simp), getD_set_ne _ _ _ _ (fun he => hbyte he.symm)]

theorem putBitsAux_spec (n : Nat) :
    ∀ pos value : Nat, ∀ st : List Nat, pos + n ≤ 8 * st.length →
      (putBitsAux st pos value n).length = st.length ∧
      (∀ i, i < n →
        getBitMSB (putBitsAux st pos value n) (pos + i) = value.testBit (n - 1 - i)) ∧
      (∀ k, k < pos ∨ pos + n ≤ k →
        getBitMSB (putBitsAux st pos value n) k = getBitMSB st k) := by
  induction n with
  | zero =>
    intro pos value st _hle
    refine ⟨rfl, ?_, ?_⟩
    · intro i hi
      omega
    · intro k _hk
      rfl
  | succ n ih =>
    intro pos value st hle
    have hdiv : pos / 8 < st.length := by
      have hlt : pos < 8 * st.length := by omega
      exact Nat.div_lt_of_lt_mul (by omega)
    have hlen1 : (setBitMSB st pos (value.testBit n)).length = st.length :=
      length_setBitMSB st pos (value.testBit n)
    obtain ⟨ihlen, ihbits, ihframe⟩ :=
      ih (pos + 1) value (setBitMSB st pos (value.testBit n)) (by omega)
    have hstep :
        putBitsAux st pos value (n + 1)
          = putBitsAux (setBitMSB st pos (value.testBit n)) (pos + 1) value n := rfl
    refine ⟨by rw [hstep, ihlen, hlen1], ?_, ?_⟩
    · intro i hi
      rw [hstep]
      cases i with
      | zero =>
        simp only [Nat.add_zero]
        rw [ihframe pos (Or.inl (by omega))]
        rw [getBitMSB_setBitMSB_self st pos (value.testBit n) hdiv]
        congr 1
      | succ i =>
        have h2 := ihbits i (by omega)
        have harg : pos + (i + 1) = pos + 1 + i := by omega
        rw [harg, h2]
        congr 1
        omega
    · intro k hk
      rw [hstep]
      rw [ihframe k (by omega)]
      exact getBitMSB_setBitMSB_ne st pos k (value.testBit n) hdiv (by omega)

theorem readBitsAt_of_bits (n : Nat) :
    ∀ pos : Nat, ∀ st : List Nat, ∀ value : Nat,
      (∀ i, i < n → getBitMSB st (pos + i) = value.testBit (n - 1 - i)) →
      readBitsAt st pos n = value % 2 ^ n := by
  induction n with
  | zero =>
    intro pos st value _h
    simp [readBitsAt, Nat.mod_one]
  | succ n ih =>
    intro pos st value h
    have h0 : getBitMSB st pos = value.testBit n := by
      have := h 0 (by omega)
      simpa using this
    have hrec : readBitsAt st (pos + 1) n = value % 2 ^ n := by
      refine ih (pos + 1) st value ?_
      intro i hi
      have := h (i + 1) (by omega)
      have harg : pos + (i + 1) = pos + 1 + i := by omega
      rw [harg] at this
      rw [this]
      congr 1
      omega
    show (getBitMSB st pos).toNat * 2 ^ n + readBitsAt st (pos + 1) n = value % 2 ^ (n + 1)
    rw [h0, hrec]
    have hbit : (value.testBit n).toNat = value / 2 ^ n % 2 := by
      rw [Nat.testBit_to_div_mod]
      rcases Nat.mod_two_eq_zero_or_one (value / 2 ^ n) with h | h <;> simp [h]
    rw [hbit, pow_succ, Nat.mod_mul]
    ring

/-- C2: for n > 0 and pos + n within the buffer bits, `PutBits(pos, value, n)`
writes the n low-order bits of `value` most-significant-bit first: the bit at
byte `(pos+i)/8`, in-byte position `7-((pos+i) mod 8)`, becomes bit `n-1-i`
of `value`; every other bit of the buffer, the storage length and all four
cursors are unchanged; and the matching most-significant-bit-first bit read
at `pos` reproduces `value` modulo `2^n` (hence `value` itself whenever it
fits in n bits). -/
theorem PutBits_contract (bb : ByteBuffer) (pos value n : Nat)
    (hn : 0 < n) (hle : pos + n ≤ bb.storage.length * 8) :
    (bb.PutBits pos value n).isOk = true ∧
    (bb.PutBits pos value n).state.rpos = bb.rpos ∧
    (bb.PutBits pos value n).state.wpos = bb.wpos ∧
    (bb.PutBits pos value n).state.bitpos = bb.bitpos ∧
    (bb.PutBits pos value n).state.curbitval = bb.curbitval ∧
    (bb.PutBits pos value n).state.storage.length = bb.storage.length ∧
    (∀ i, i < n →
      getBitMSB (bb.PutBits pos value n).state.storage (pos + i)
        = value.testBit (n - 1 - i)) ∧
    (∀ k, k < pos ∨ pos + n ≤ k →
      getBitMSB (bb.PutBits pos value n).state.storage k = getBitMSB bb.storage k) ∧
    readBitsAt (bb.PutBits pos value n).state.storage pos n = value % 2 ^ n := by
  unfold ByteBuffer.PutBits
  rw [if_neg (by omega), if_neg (by omega)]
  obtain ⟨hl, hbits, hframe⟩ := putBitsAux_spec n pos value bb.storage (by omega)
  exact ⟨rfl, rfl, rfl, rfl, rfl, hl, hbits, hframe,
    readBitsAt_of_bits n pos (putBitsAux bb.storage pos value n) value hbits⟩

/-- C2 witness: writing value 5 over 4 bits at bit offset 3 of a two-byte
buffer. -/
theorem PutBits_contract_witness :
    ((0 < 4 ∧ 3 + 4 ≤ ([0, 0] : List Nat).length * 8) ∧
      readBitsAt (ByteBuffer.PutBits
        { ByteBuffer.fresh with storage := [0, 0], wpos := 2 } 3 5 4).state.storage 3 4
        = 5 % 2 ^ 4) := by
  refine ⟨⟨by decide, by decide⟩, ?_⟩
  exact (PutBits_contract { ByteBuffer.fresh with storage := [0, 0], wpos := 2 } 3 5 4
    (by decide) (by decide)).2.2.2.2.2.2.2.2
